import Mathlib

/-
Shallow embedding of the log-dehashing and generation-splitting pipeline of
the linear-inserter worker.  The definitions below translate the functions
splitGenerations, the build-identifier extraction, getDictionary and
dehashLogs from src/index.ts, the extracted utils module, and (modelled from
the spec, because the package is external) the LogDehash dehasher.
-/

/-- A dictionary is the entry list of the token-to-plaintext mapping loaded
from a stored JSON object, in insertion order. -/
abbrev Dict := List (String × String)

/-- Splits a character list at newline characters, keeping empty segments;
models JavaScript String.prototype.split with the one-character separator
used by the source (logs.split and generation.split). -/
def splitLines : List Char → List (List Char)
  | [] => [[]]
  | c :: cs =>
    match splitLines cs with
    | [] => [[c]]
    | l :: ls => if c = '\n' then [] :: l :: ls else (c :: l) :: ls

/-- models logs.split('\n') at the String level. -/
def splitNl (s : String) : List String :=
  (splitLines s.data).map (fun l => ⟨l⟩)

/-- models Array.prototype.join('\n') on a list of lines. -/
def joinNl : List String → String
  | [] => ""
  | [l] => l
  | l :: ls => l ++ "\n" ++ joinNl ls

/-- The literal text before the generation number in GENERATION_REGEX. -/
def genMarkerPre : List Char := "=== Generation: ".data

/-- The literal text after the generation number in GENERATION_REGEX. -/
def genMarkerSuf : List Char := " ===".data

/-- Matches a literal character sequence at the head of a list and returns
the remainder, or none when the literal does not occur there. -/
def dropLit : List Char → List Char → Option (List Char)
  | [], s => some s
  | _ :: _, [] => none
  | p :: ps, c :: cs => if p = c then dropLit ps cs else none

/-- models line.match(GENERATION_REGEX) being non-null: the whole line equals
the marker text with one-or-more digits in the number position (the regex is
anchored on both sides, so a marker occurring mid-line does not match). -/
def isGenerationMarker (line : String) : Bool :=
  match dropLit genMarkerPre line.data with
  | none => false
  | some rest =>
    !(rest.takeWhile Char.isDigit).isEmpty &&
      (rest.dropWhile Char.isDigit == genMarkerSuf)

/-- The line-level accumulator loop of splitGenerations, before the lines of
a closed generation are joined with newlines: cur is currentGeneration and
opn records whether currentGenerationNumber is non-null. -/
def splitAuxL : List String → List String → Bool → List (List String)
  | [], cur, _ => if cur.length > 0 then [cur] else []
  | l :: ls, cur, opn =>
    if isGenerationMarker l then
      (if opn then [cur] else []) ++ splitAuxL ls [l] true
    else if opn then splitAuxL ls (cur ++ [l]) true
    else splitAuxL ls cur false

/-- The loop of splitGenerations as written in the source: a generation is
pushed as the newline-join of its accumulated lines when it is closed by the
next marker, and the open generation is flushed at end of input. -/
def splitGenAux : List String → List String → Bool → List String
  | [], cur, _ => if cur.length > 0 then [joinNl cur] else []
  | l :: ls, cur, opn =>
    if isGenerationMarker l then
      (if opn then [joinNl cur] else []) ++ splitGenAux ls [l] true
    else if opn then splitGenAux ls (cur ++ [l]) true
    else splitGenAux ls cur false

/-- models splitGenerations from src/index.ts (identical in the utils
module): scan the lines of the input, open a generation at each marker line,
append non-marker lines to the open generation, drop orphan lines occurring
before the first marker, and flush the final open generation. -/
def splitGenerations (logs : String) : List String :=
  splitGenAux (splitNl logs) [] false

/-- The literal label of BUILD_ID_REGEX, including its single space. -/
def buildLabel : List Char := "Build ID: ".data

/-- Case-insensitive character comparison, as the regex i flag applies it to
the ASCII label and token characters. -/
def charIEq (a b : Char) : Bool := a.toLower == b.toLower

/-- Matches a literal character sequence case-insensitively at the head of a
list and returns the remainder. -/
def dropLabelCI : List Char → List Char → Option (List Char)
  | [], s => some s
  | _ :: _, [] => none
  | p :: ps, c :: cs => if charIEq p c then dropLabelCI ps cs else none

/-- The token character class of BUILD_ID_REGEX: [a-z0-9] under the i flag,
hence ASCII letters and digits. -/
def isTokenChar (c : Char) : Bool := c.isAlphanum

/-- Tries BUILD_ID_REGEX at one position: the label must occur literally
(case-insensitively) and be followed by at least one token character; the
capture is the maximal token-character run, original casing preserved. -/
def matchBuildIdAt (s : List Char) : Option (List Char) :=
  match dropLabelCI buildLabel s with
  | none => none
  | some rest =>
    match rest.takeWhile isTokenChar with
    | [] => none
    | tok => some tok

/-- Leftmost regex search: try BUILD_ID_REGEX at each position from the left
and return the first capture. -/
def findBuildId : List Char → Option (List Char)
  | [] => none
  | c :: cs =>
    match matchBuildIdAt (c :: cs) with
    | some tok => some tok
    | none => findBuildId cs

/-- models generation.match(BUILD_ID_REGEX)?.[1] in dehashLogs: the capture
of the first match of /Build ID: ([a-z0-9]+)/i anywhere in the text, or none
when the text has no match. -/
def extractBuildId (text : String) : Option String :=
  (findBuildId text.data).map (fun l => ⟨l⟩)

/-- embeds extractBuildId from the extracted utils module: that function
computes the regex match, then unconditionally returns null (the source
comment reads DELIBERATE BUG), so the embedding is the constant none. -/
def extractBuildIdUtils (_text : String) : Option String := none

/-- Modelled from the spec: one rewriting pass of the external LogDehash
dehasher, replacing the leftmost occurrences of one dictionary key by its
value throughout a character list; the fuel argument bounds the scan by the
input length so the definition computes by kernel reduction. -/
def replFuel (key val : List Char) : Nat → List Char → List Char
  | 0, s => s
  | _ + 1, [] => []
  | n + 1, c :: cs =>
    if !key.isEmpty && key.isPrefixOf (c :: cs) then
      val ++ replFuel key val n ((c :: cs).drop key.length)
    else c :: replFuel key val n cs

/-- Modelled from the spec: replace every occurrence of key by val in s. -/
def listReplace (key val s : List Char) : List Char :=
  replFuel key val s.length s

/-- Modelled from the spec: LogDehash.dehash rewrites a single line by
replacing every occurrence of every dictionary key with its mapped plaintext
value; an empty dictionary, or a line containing no key, leaves the line
unchanged. -/
def dehash (dict : Dict) (line : String) : String :=
  ⟨dict.foldl (fun acc kv => listReplace kv.1.data kv.2.data acc) line.data⟩

/-- models the per-generation rewriting step of dehashLogs:
generation.split('\n').map(line => logDehash.dehash(line)).join('\n'). -/
def dehashGeneration (dict : Dict) (gen : String) : String :=
  joinNl ((splitNl gen).map (fun l => dehash dict l))

/-- models getDictionary from src/index.ts over an abstract bucket listing:
keys are object names in listing order; a payload of none models a thrown
hard failure (missing object body or malformed stored JSON), a payload of
some d models a successfully parsed dictionary.  The build id is lowercased
before the prefix match against object keys; an empty bucket or no matching
key yields the empty dictionary, not an error. -/
def getDictionary (storage : List (String × Option Dict)) (buildId : String) :
    Option Dict :=
  match storage.filter
      (fun kv => (buildId.data.map Char.toLower).isPrefixOf kv.1.data) with
  | [] => some []
  | kv :: _ => kv.2

/-- The mutable state threaded through the loop of dehashLogs: the
dictionary cache keyed by build id, the accumulated output text, and (for
stating the fetch-count properties) the ordered list of build ids for which
the dictionary provider was invoked. -/
structure DState where
  cache : List (String × Dict)
  output : String
  fetched : List String

/-- The state at entry of dehashLogs: empty cache, empty output. -/
def initState : DState := ⟨[], "", []⟩

/-- models one iteration of the loop of dehashLogs over a generation: no
build id or an empty fetched dictionary passes the generation through
followed by one newline; a provider hard failure (none) aborts; a non-empty
fetched dictionary is cached under the build id and the generation is
dehashed line by line. -/
def processGeneration (provider : String → Option Dict) (st : DState)
    (gen : String) : Option DState :=
  match extractBuildId gen with
  | none => some { st with output := st.output ++ gen ++ "\n" }
  | some buildId =>
    match st.cache.lookup buildId with
    | some dict =>
      some { st with output := st.output ++ dehashGeneration dict gen ++ "\n" }
    | none =>
      match provider buildId with
      | none => none
      | some dict =>
        if dict.isEmpty then
          some { st with output := st.output ++ gen ++ "\n",
                         fetched := st.fetched ++ [buildId] }
        else
          some { cache := st.cache ++ [(buildId, dict)],
                 output := st.output ++ dehashGeneration dict gen ++ "\n",
                 fetched := st.fetched ++ [buildId] }

/-- The loop of dehashLogs over the generation sequence; a hard failure in
any iteration aborts the whole run (the thrown error propagates). -/
def runGens (provider : String → Option Dict) :
    List String → DState → Option DState
  | [], st => some st
  | g :: gs, st =>
    match processGeneration provider st g with
    | none => none
    | some st' => runGens provider gs st'

/-- models dehashLogs from src/index.ts, with the dictionary provider
abstracted as in the spec: returns the concatenated output together with the
ordered list of provider invocations, or none when a provider hard failure
aborted the invocation (in which case the caller receives only the error and
no output text). -/
def dehashLogs (provider : String → Option Dict) (logs : String) :
    Option (String × List String) :=
  (runGens provider (splitGenerations logs) initState).map
    (fun st => (st.output, st.fetched))

/-- dehashLogs wired to the embedded getDictionary, as in the source. -/
def dehashLogsS3 (storage : List (String × Option Dict)) (logs : String) :
    Option (String × List String) :=
  dehashLogs (getDictionary storage) logs

-- Concrete data for the scenario claims.

/-- The input of the C1 scenario. -/
def c1Input : String :=
  "=== Generation: 1 ===\nBuild ID: abc123\nhash1 hash2\n=== Generation: 2 ===\nBuild ID: abc123\nhash1\n"

/-- The C1 provider: the dictionary for abc123 maps hash1 to X and hash2 to
Y; every other identifier has no dictionary. -/
def c1Provider : String → Option Dict := fun id =>
  if id = "abc123" then some [("hash1", "X"), ("hash2", "Y")] else some []

/-- The output the C1 claim asserts. -/
def c1Claimed : String :=
  "=== Generation: 1 ===\nBuild ID: abc123\nX Y\n=== Generation: 2 ===\nBuild ID: abc123\nX\n"

/-- A good group is a marker line followed by non-marker lines. -/
def GoodGroup (g : List String) : Prop :=
  ∃ m rest, g = m :: rest ∧ isGenerationMarker m = true ∧
    ∀ l ∈ rest, isGenerationMarker l = false

/-- A sound cache holds, for each key, exactly the non-empty dictionary the
provider returns for that key. -/
def CacheSound (provider : String → Option Dict)
    (c : List (String × Dict)) : Prop :=
  ∀ b d, List.lookup b c = some d → provider b = some d ∧ d ≠ []

/-- A provider with no dictionary for any identifier (every fetch reports
the recoverable empty result, never a hard failure). -/
def emptyProvider : String → Option Dict := fun _ => some []

/-- A provider whose every fetch is a hard failure. -/
def errProvider : String → Option Dict := fun _ => none

/-- Two generations sharing one build id, with the empty-dictionary
provider: exercises the absence of negative caching. -/
def c2Input : String :=
  "=== Generation: 1 ===\nBuild ID: x7\n=== Generation: 2 ===\nBuild ID: x7"

/-- A provider holding, for every identifier, a non-empty dictionary whose
key occurs in no test input. -/
def c2WitProvider : String → Option Dict := fun _ => some [("zz", "y")]

/-- Two generations sharing one build id, for the cache-hit witness. -/
def c2WitInput : String :=
  "=== Generation: 1 ===\nBuild ID: q\n=== Generation: 2 ===\nBuild ID: q"

/-- A single generation with no build-id line. -/
def c3WitGen : String := "=== Generation: 1 ===\nplain line"

/-- The bucket listing for the C9 scenario: one object whose key is
prefixed by the lowercased build id, holding a non-empty dictionary. -/
def c9Storage : List (String × Option Dict) :=
  [("abc-dict.json", some [("h", "plain")])]

/-- Two generations whose build-id tokens differ only in letter case. -/
def c9Input : String :=
  "=== Generation: 1 ===\nBuild ID: ABC\nh\n=== Generation: 2 ===\nBuild ID: abc\nh"

-- Lemmas about the generation splitter.

/-- The source loop equals the line-level loop followed by joining each
closed generation with newlines. -/
theorem splitGenAux_eq_map (ls : List String) :
    ∀ cur opn, splitGenAux ls cur opn = (splitAuxL ls cur opn).map joinNl := by
  induction ls with
  | nil =>
    intro cur opn
    simp only [splitGenAux, splitAuxL]
    split <;> simp
  | cons l ls ih =>
    intro cur opn
    by_cases hm : isGenerationMarker l
    · simp only [splitGenAux, splitAuxL, hm, if_true, List.map_append, ih]
      cases opn <;> simp
    · simp only [splitGenAux, splitAuxL, hm, if_false]
      cases opn <;> simp [ih]

/-- With a generation open, the line loop emits one group per remaining
marker line, plus the group closing the open generation. -/
theorem splitAuxL_length_true (ls : List String) :
    ∀ cur, cur ≠ [] → (splitAuxL ls cur true).length
      = 1 + ls.countP (fun l => isGenerationMarker l) := by
  induction ls with
  | nil =>
    intro cur hcur
    have : 0 < cur.length := List.length_pos.mpr hcur
    simp [splitAuxL, this]
  | cons l ls ih =>
    intro cur hcur
    by_cases hm : isGenerationMarker l
    · simp [splitAuxL, hm, ih [l] (by simp), List.countP_cons]
      omega
    · simp [splitAuxL, hm, ih (cur ++ [l]) (by simp), List.countP_cons]

/-- With no generation open, the line loop emits exactly one group per
marker line. -/
theorem splitAuxL_length_false (ls : List String) :
    (splitAuxL ls [] false).length
      = ls.countP (fun l => isGenerationMarker l) := by
  induction ls with
  | nil => simp [splitAuxL]
  | cons l ls ih =>
    by_cases hm : isGenerationMarker l
    · simp [splitAuxL, hm, splitAuxL_length_true ls [l] (by simp),
        List.countP_cons]
      omega
    · simp [splitAuxL, hm, ih, List.countP_cons]

/-- With a generation open, no line is dropped: the emitted groups
concatenate to the accumulated lines followed by the remaining input. -/
theorem splitAuxL_join_true (ls : List String) :
    ∀ cur, (splitAuxL ls cur true).flatten = cur ++ ls := by
  induction ls with
  | nil =>
    intro cur
    by_cases h : cur.length > 0
    · simp [splitAuxL, h]
    · simp only [Nat.not_lt, Nat.le_zero, List.length_eq_zero] at h
      simp [splitAuxL, h]
  | cons l ls ih =>
    intro cur
    by_cases hm : isGenerationMarker l
    · simp [splitAuxL, hm, ih]
    · simp [splitAuxL, hm, ih]

/-- With no generation open, the emitted groups concatenate to the input
lines from the first marker line onward: every orphan line before the first
marker is dropped. -/
theorem splitAuxL_join_false (ls : List String) :
    (splitAuxL ls [] false).flatten
      = ls.dropWhile (fun l => !isGenerationMarker l) := by
  induction ls with
  | nil => simp [splitAuxL]
  | cons l ls ih =>
    by_cases hm : isGenerationMarker l
    · simp [splitAuxL, hm, splitAuxL_join_true, List.dropWhile_cons]
    · simp [splitAuxL, hm, ih, List.dropWhile_cons]

/-- With a generation open whose accumulated lines form a good group, every
emitted group is good: it starts with its marker line and contains no other
marker line. -/
theorem splitAuxL_shape_true (ls : List String) :
    ∀ cur, GoodGroup cur → ∀ g ∈ splitAuxL ls cur true, GoodGroup g := by
  induction ls with
  | nil =>
    intro cur hcur g hg
    simp only [splitAuxL] at hg
    split at hg
    · rw [List.mem_singleton] at hg
      exact hg ▸ hcur
    · exact absurd hg (List.not_mem_nil g)
  | cons l ls ih =>
    intro cur hcur g hg
    by_cases hm : isGenerationMarker l
    · simp only [splitAuxL, hm, if_true, List.mem_append, List.mem_singleton] at hg
      rcases hg with hg | hg
      · exact hg ▸ hcur
      · exact ih [l] ⟨l, [], rfl, hm, by simp⟩ g hg
    · simp only [splitAuxL, hm, if_false] at hg
      refine ih (cur ++ [l]) ?_ g hg
      obtain ⟨m, rest, hcw, hmk, hrest⟩ := hcur
      refine ⟨m, rest ++ [l], by simp [hcw], hmk, ?_⟩
      intro x hx
      rcases List.mem_append.mp hx with hx | hx
      · exact hrest x hx
      · simp at hx
        simp [hx, hm]

/-- With no generation open, every emitted group is good. -/
theorem splitAuxL_shape_false (ls : List String) :
    ∀ g ∈ splitAuxL ls [] false, GoodGroup g := by
  induction ls with
  | nil =>
    intro g hg
    simp [splitAuxL] at hg
  | cons l ls ih =>
    intro g hg
    by_cases hm : isGenerationMarker l
    · simp only [splitAuxL, hm, if_true] at hg
      simp only [Bool.false_eq_true, if_false, List.nil_append] at hg
      exact splitAuxL_shape_true ls [l] ⟨l, [], rfl, hm, by simp⟩ g hg
    · simp only [splitAuxL, hm, if_false] at hg
      exact ih g hg

/-- C6: on any input, splitGenerations returns exactly one element per line
matching the generation marker pattern, in encounter order; the elements are
the newline-joins of the line groups of the input, each group beginning with
its marker line and containing no other marker line, and the groups
concatenate (without dropping or duplicating a line) to the input lines from
the first marker line onward. -/
theorem splitGenerations_c6 (logs : String) :
    (splitGenerations logs).length
        = (splitNl logs).countP (fun l => isGenerationMarker l)
    ∧ splitGenerations logs = (splitAuxL (splitNl logs) [] false).map joinNl
    ∧ (splitAuxL (splitNl logs) [] false).flatten
        = (splitNl logs).dropWhile (fun l => !isGenerationMarker l)
    ∧ ∀ g ∈ splitAuxL (splitNl logs) [] false, GoodGroup g := by
  refine ⟨?_, ?_, ?_, ?_⟩
  · show (splitGenAux (splitNl logs) [] false).length = _
    rw [splitGenAux_eq_map, List.length_map]
    exact splitAuxL_length_false (splitNl logs)
  · exact splitGenAux_eq_map (splitNl logs) [] false
  · exact splitAuxL_join_false (splitNl logs)
  · exact splitAuxL_shape_false (splitNl logs)

/-- C7: splitGenerations returns the empty sequence on empty input and on
any input none of whose lines wholly matches the marker pattern; a marker
occurring mid-line (here with surrounding text on the same line) is not
recognized, so such input also yields the empty sequence. -/
theorem splitGenerations_c7 :
    splitGenerations "" = []
    ∧ (∀ logs : String,
        (∀ l ∈ splitNl logs, isGenerationMarker l = false) →
        splitGenerations logs = [])
    ∧ splitGenerations
        "x === Generation: 1 === y\n=== Generation: 2 === tail" = [] := by
  refine ⟨by decide, ?_, by decide⟩
  intro logs h
  have hlen : (splitGenerations logs).length = 0 := by
    show (splitGenAux (splitNl logs) [] false).length = 0
    rw [splitGenAux_eq_map, List.length_map, splitAuxL_length_false]
    simp only [List.countP_eq_zero]
    intro l hl
    simp [h l hl]
  exact List.length_eq_zero.mp hlen

/-- Witness for C7 at a concrete marker-free input. -/
theorem splitGenerations_c7_witness :
    splitGenerations "no markers in sight\njust logs" = [] :=
  splitGenerations_c7.2.1 "no markers in sight\njust logs" (by decide)

-- Lemmas about the orchestrator loop.

/-- Association-list lookup distributes over append: the left list wins. -/
theorem lookup_append (k : String) (c₁ c₂ : List (String × Dict)) :
    List.lookup k (c₁ ++ c₂) =
      match List.lookup k c₁ with
      | some v => some v
      | none => List.lookup k c₂ := by
  induction c₁ with
  | nil => simp [List.lookup]
  | cons kv c₁ ih =>
    obtain ⟨a, v⟩ := kv
    by_cases h : k == a
    · simp [List.lookup, h]
    · simp only [Bool.not_eq_true] at h
      simp [List.lookup, h, ih]

/-- The empty cache is sound. -/
theorem cacheSound_nil (provider : String → Option Dict) :
    CacheSound provider [] := by
  intro b d h
  simp [List.lookup] at h

/-- One loop iteration preserves cache soundness: the cache only ever gains
an entry for a build id whose freshly fetched dictionary is non-empty. -/
theorem processGeneration_cacheSound {provider : String → Option Dict}
    {st st' : DState} {gen : String}
    (hs : CacheSound provider st.cache)
    (hp : processGeneration provider st gen = some st') :
    CacheSound provider st'.cache := by
  cases hex : extractBuildId gen with
  | none =>
    simp only [processGeneration, hex] at hp
    cases hp
    exact hs
  | some buildId =>
    simp only [processGeneration, hex] at hp
    cases hlk : List.lookup buildId st.cache with
    | some dict =>
      simp only [hlk] at hp
      cases hp
      exact hs
    | none =>
      simp only [hlk] at hp
      cases hpr : provider buildId with
      | none =>
        simp only [hpr] at hp
        cases hp
      | some dict =>
        simp only [hpr] at hp
        by_cases hde : dict.isEmpty
        · rw [if_pos hde] at hp
          cases hp
          exact hs
        · rw [if_neg hde] at hp
          cases hp
          intro b d hbd
          simp only [lookup_append] at hbd
          cases hlb : List.lookup b st.cache with
          | some v =>
            simp only [hlb] at hbd
            cases hbd
            exact hs b d hlb
          | none =>
            simp only [hlb] at hbd
            by_cases hb : b == buildId
            · simp [List.lookup, hb] at hbd
              refine ⟨?_, ?_⟩
              · rw [eq_of_beq hb, hpr, hbd]
              · rw [← hbd]
                simpa [List.isEmpty_iff] using hde
            · simp only [Bool.not_eq_true] at hb
              simp [List.lookup, hb] at hbd

/-- Running the loop preserves cache soundness. -/
theorem runGens_cacheSound {provider : String → Option Dict} :
    ∀ (gs : List String) (st st' : DState),
      CacheSound provider st.cache →
      runGens provider gs st = some st' →
      CacheSound provider st'.cache := by
  intro gs
  induction gs with
  | nil =>
    intro st st' hs hr
    cases hr
    exact hs
  | cons g gs ih =>
    intro st st' hs hr
    unfold runGens at hr
    cases hp : processGeneration provider st g with
    | none => rw [hp] at hr; cases hr
    | some st₁ =>
      rw [hp] at hr
      exact ih st₁ st' (processGeneration_cacheSound hs hp) hr

/-- Running the loop over an appended generation list runs the two parts in
sequence. -/
theorem runGens_append (provider : String → Option Dict) :
    ∀ (gs₁ gs₂ : List String) (st : DState),
      runGens provider (gs₁ ++ gs₂) st =
        match runGens provider gs₁ st with
        | none => none
        | some st' => runGens provider gs₂ st' := by
  intro gs₁
  induction gs₁ with
  | nil => intro gs₂ st; simp [runGens]
  | cons g gs₁ ih =>
    intro gs₂ st
    simp only [List.cons_append, runGens]
    cases hp : processGeneration provider st g with
    | none => simp only [hp]
    | some st₁ =>
      simp only [hp]
      exact ih gs₂ st₁

-- C3 and C4.

/-- C3: whenever the pipeline reaches a generation that either has no build
id or whose build id the provider answers with the empty dictionary, the
loop iteration succeeds (no error surfaces), appends exactly the original
generation text followed by one newline to the output, leaves the cache
unchanged, and the whole run continues with the remaining generations. -/
theorem dehashLogs_passthrough_c3
    (provider : String → Option Dict) (logs : String)
    (pre post : List String) (gen : String) (st : DState)
    (hsplit : splitGenerations logs = pre ++ gen :: post)
    (hreach : runGens provider pre initState = some st)
    (hcase : extractBuildId gen = none ∨
      ∃ id, extractBuildId gen = some id ∧ provider id = some []) :
    ∃ st', processGeneration provider st gen = some st'
      ∧ st'.output = st.output ++ gen ++ "\n"
      ∧ st'.cache = st.cache
      ∧ runGens provider (splitGenerations logs) initState
          = runGens provider post st' := by
  have hsound : CacheSound provider st.cache :=
    runGens_cacheSound pre initState st (cacheSound_nil provider) hreach
  rcases hcase with hnone | ⟨id, hid, hready⟩
  · refine ⟨{ st with output := st.output ++ gen ++ "\n" }, ?_, rfl, rfl, ?_⟩
    · simp only [processGeneration, hnone]
    · rw [hsplit, runGens_append]
      simp only [hreach, runGens]
      simp only [processGeneration, hnone]
  · have hlk : List.lookup id st.cache = none := by
      cases h : List.lookup id st.cache with
      | none => rfl
      | some d =>
        obtain ⟨h1, h2⟩ := hsound id d h
        rw [hready] at h1
        cases h1
        exact absurd rfl h2
    refine ⟨{ st with output := st.output ++ gen ++ "\n", fetched := st.fetched ++ [id] }, ?_, rfl, rfl, ?_⟩
    · simp only [processGeneration, hid, hlk, hready, List.isEmpty_nil,
        if_true]
    · rw [hsplit, runGens_append]
      simp only [hreach, runGens]
      simp only [processGeneration, hid, hlk, hready, List.isEmpty_nil,
        if_true]

/-- Witness for C3: a one-generation input with no build-id line passes
through unchanged with a trailing newline. -/
theorem dehashLogs_passthrough_c3_witness :
    ∃ st', processGeneration emptyProvider initState c3WitGen = some st'
      ∧ st'.output = initState.output ++ c3WitGen ++ "\n"
      ∧ st'.cache = initState.cache
      ∧ runGens emptyProvider (splitGenerations c3WitGen) initState
          = runGens emptyProvider [] st' :=
  dehashLogs_passthrough_c3 emptyProvider c3WitGen [] [] c3WitGen initState
    (by decide) rfl (Or.inl (by decide))

/-- C4: if the pipeline reaches a generation whose build id makes the
provider fail hard, the whole dehashLogs invocation aborts: the caller
receives the single propagated error (modelled as none) and no output text,
partial or otherwise. -/
theorem dehashLogs_fatal_c4
    (provider : String → Option Dict) (logs : String)
    (pre post : List String) (gen id : String) (st : DState)
    (hsplit : splitGenerations logs = pre ++ gen :: post)
    (hreach : runGens provider pre initState = some st)
    (hid : extractBuildId gen = some id)
    (herr : provider id = none) :
    dehashLogs provider logs = none := by
  have hsound : CacheSound provider st.cache :=
    runGens_cacheSound pre initState st (cacheSound_nil provider) hreach
  have hlk : List.lookup id st.cache = none := by
    cases h : List.lookup id st.cache with
    | none => rfl
    | some d =>
      obtain ⟨h1, _⟩ := hsound id d h
      rw [herr] at h1
      cases h1
  unfold dehashLogs
  rw [hsplit, runGens_append]
  simp only [hreach, runGens]
  simp only [processGeneration, hid, hlk, herr, Option.map_none']

/-- Witness for C4 at a concrete one-generation input with an
always-failing provider. -/
theorem dehashLogs_fatal_c4_witness :
    dehashLogs errProvider "=== Generation: 1 ===\nBuild ID: abc" = none :=
  dehashLogs_fatal_c4 errProvider "=== Generation: 1 ===\nBuild ID: abc"
    [] [] "=== Generation: 1 ===\nBuild ID: abc" "abc" initState
    (by decide) rfl (by decide) rfl

-- The fetch-count invariant behind the caching behavior.

/-- One loop iteration preserves the invariant that the provider was
invoked at most once for an identifier whose dictionary is non-empty, and
that after such an invocation the identifier is cached. -/
theorem processGeneration_fetch_inv {provider : String → Option Dict}
    {id : String} (hgood : ∀ d, provider id = some d → d ≠ [])
    {st st' : DState} {gen : String}
    (hp : processGeneration provider st gen = some st')
    (h1 : st.fetched.count id ≤ 1)
    (h2 : st.fetched.count id = 1 → (List.lookup id st.cache).isSome) :
    st'.fetched.count id ≤ 1
      ∧ (st'.fetched.count id = 1 → (List.lookup id st'.cache).isSome) := by
  cases hex : extractBuildId gen with
  | none =>
    simp only [processGeneration, hex] at hp
    cases hp
    exact ⟨h1, h2⟩
  | some b =>
    simp only [processGeneration, hex] at hp
    cases hlk : List.lookup b st.cache with
    | some dict =>
      simp only [hlk] at hp
      cases hp
      exact ⟨h1, h2⟩
    | none =>
      simp only [hlk] at hp
      cases hpr : provider b with
      | none =>
        simp only [hpr] at hp
        cases hp
      | some dict =>
        simp only [hpr] at hp
        by_cases hbid : id = b
        · subst hbid
          have hne : dict ≠ [] := hgood dict hpr
          have hde : dict.isEmpty = false := by
            cases dict with
            | nil => exact absurd rfl hne
            | cons x xs => rfl
          rw [hde] at hp
          simp only [Bool.false_eq_true, if_false] at hp
          cases hp
          have hc0 : st.fetched.count id = 0 := by
            rcases Nat.lt_or_ge (st.fetched.count id) 1 with h | h
            · omega
            · have : st.fetched.count id = 1 := by omega
              have := h2 this
              rw [hlk] at this
              simp at this
          constructor
          · simp [List.count_append, List.count_cons, hc0]
          · intro _
            rw [lookup_append, hlk]
            simp [List.lookup]
        · have hcnt : (st.fetched ++ [b]).count id = st.fetched.count id := by
            simp [List.count_append, List.count_cons]
            intro h
            exact hbid h.symm
          by_cases hde : dict.isEmpty
          · rw [if_pos hde] at hp
            cases hp
            exact ⟨by simpa [hcnt] using h1, by
              intro h
              rw [hcnt] at h
              exact h2 h⟩
          · rw [if_neg hde] at hp
            cases hp
            refine ⟨by simpa [hcnt] using h1, ?_⟩
            intro h
            rw [hcnt] at h
            have := h2 h
            rw [lookup_append]
            cases hli : List.lookup id st.cache with
            | none => rw [hli] at this; simp at this
            | some v => simp [hli]

/-- Running the loop preserves the fetch-count invariant. -/
theorem runGens_fetch_inv {provider : String → Option Dict} {id : String}
    (hgood : ∀ d, provider id = some d → d ≠ []) :
    ∀ (gs : List String) (st st' : DState),
      runGens provider gs st = some st' →
      st.fetched.count id ≤ 1 →
      (st.fetched.count id = 1 → (List.lookup id st.cache).isSome) →
      st'.fetched.count id ≤ 1 := by
  intro gs
  induction gs with
  | nil =>
    intro st st' hr h1 _
    cases hr
    exact h1
  | cons g gs ih =>
    intro st st' hr h1 h2
    unfold runGens at hr
    cases hp : processGeneration provider st g with
    | none => rw [hp] at hr; cases hr
    | some st₁ =>
      rw [hp] at hr
      obtain ⟨h1', h2'⟩ := processGeneration_fetch_inv hgood hp h1 h2
      exact ih st₁ st' hr h1' h2'

/-- C2 (amended): within one dehashLogs invocation the provider is invoked
at most once for any build identifier whose fetch yields a non-empty
dictionary; an identifier whose fetch yields the empty dictionary is not
covered, because the empty result is not cached. -/
theorem dehashLogs_fetch_once_c2
    (provider : String → Option Dict) (logs id : String)
    (out : String) (fetched : List String)
    (hgood : ∀ d, provider id = some d → d ≠ [])
    (hrun : dehashLogs provider logs = some (out, fetched)) :
    fetched.count id ≤ 1 := by
  unfold dehashLogs at hrun
  cases hr : runGens provider (splitGenerations logs) initState with
  | none => rw [hr] at hrun; cases hrun
  | some st =>
    rw [hr] at hrun
    simp only [Option.map_some', Option.some.injEq, Prod.mk.injEq] at hrun
    have hf : st.fetched = fetched := hrun.2
    have : st.fetched.count id ≤ 1 := by
      refine runGens_fetch_inv hgood (splitGenerations logs) initState st hr ?_ ?_
      · simp [initState]
      · intro h
        simp [initState] at h
    rw [hf] at this
    exact this

/-- C2 counterexample: with a provider whose dictionary for x7 is empty,
two generations sharing the build id x7 cause two provider invocations in
one dehashLogs invocation, refuting at-most-one-fetch-per-identifier as
stated. -/
theorem dehashLogs_c2_counterexample :
    dehashLogs emptyProvider c2Input
      = some ("=== Generation: 1 ===\nBuild ID: x7\n=== Generation: 2 ===\nBuild ID: x7\n",
          ["x7", "x7"])
    ∧ ¬ (["x7", "x7"].count "x7" ≤ 1) := by
  constructor
  · decide
  · decide

/-- Witness for amended C2: two generations sharing build id q with a
non-empty dictionary cause exactly one provider invocation. -/
theorem dehashLogs_fetch_once_c2_witness :
    (∀ d, c2WitProvider "q" = some d → d ≠ [])
    ∧ dehashLogs c2WitProvider c2WitInput
        = some ("=== Generation: 1 ===\nBuild ID: q\n=== Generation: 2 ===\nBuild ID: q\n",
            ["q"])
    ∧ (["q"] : List String).count "q" ≤ 1 := by
  have hgood : ∀ d, c2WitProvider "q" = some d → d ≠ [] := by
    intro d h
    simp only [c2WitProvider, Option.some.injEq] at h
    rw [← h]
    simp
  refine ⟨hgood, by decide, ?_⟩
  exact dehashLogs_fetch_once_c2 c2WitProvider c2WitInput "q"
    "=== Generation: 1 ===\nBuild ID: q\n=== Generation: 2 ===\nBuild ID: q\n"
    ["q"] hgood (by decide)

-- C1, C5, C8, C9.

/-- C1 counterexample: on the scenario input the pipeline does not return
the claimed text with exactly one provider call; the actual return value
differs (by one extra trailing newline, established by the amended
theorem). -/
theorem dehashLogs_c1_counterexample :
    dehashLogs c1Provider c1Input ≠ some (c1Claimed, ["abc123"]) := by
  decide

/-- C1 (amended): on the scenario input the pipeline performs exactly one
provider call (the fetch list is the one-element list for abc123) and
returns the claimed text plus one extra trailing newline, because the
newline-terminated input puts an empty final line into the second
generation and the loop appends one more newline per generation. -/
theorem dehashLogs_c1_scenario :
    dehashLogs c1Provider c1Input = some (c1Claimed ++ "\n", ["abc123"]) := by
  decide

/-- C5: the utils-module extractor returns null on the failing input (it
returns null on every input, per its own DELIBERATE BUG comment), while the
regex extraction used by dehashLogs, the repository's own unit tests and
the spec all expect the captured token abc123 there. -/
theorem extractBuildId_c5_bug :
    extractBuildIdUtils "Some text with Build ID: abc123 in it" = none
    ∧ extractBuildId "Some text with Build ID: abc123 in it"
        = some "abc123" := by
  constructor
  · rfl
  · decide

/-- C8 counterexample: the extractor matches both inputs but preserves the
original casing of the captured token, so the two results are unequal (and
the second is not the normalized form abc123). -/
theorem extractBuildId_c8_counterexample :
    extractBuildId "Build ID: abc123" = some "abc123"
    ∧ extractBuildId "build id: ABC123" = some "ABC123"
    ∧ extractBuildId "Build ID: abc123"
        ≠ extractBuildId "build id: ABC123" := by
  refine ⟨by decide, by decide, by decide⟩

/-- C8 (amended): the matching logic is case-insensitive — both inputs
match and the captured tokens agree after case normalization, both
lowercasing to abc123 — but the captures themselves keep their original
casing and are therefore not equal as returned. -/
theorem extractBuildId_c8_amended :
    (extractBuildId "Build ID: abc123").map
        (fun t => (⟨t.data.map Char.toLower⟩ : String)) = some "abc123"
    ∧ (extractBuildId "build id: ABC123").map
        (fun t => (⟨t.data.map Char.toLower⟩ : String)) = some "abc123" := by
  refine ⟨by decide, by decide⟩

/-- C9: the cache is keyed by the token with its original casing while
storage matching lowercases it, so two generations whose tokens differ only
in case each trigger their own fetch: the fetch list has two entries (ABC
and abc) within the single invocation, though both resolve to the same
stored dictionary. -/
theorem dehashLogs_c9_case_fetches :
    dehashLogsS3 c9Storage c9Input
      = some ("=== Generation: 1 ===\nBuild ID: ABC\nplain\n=== Generation: 2 ===\nBuild ID: abc\nplain\n",
          ["ABC", "abc"])
    ∧ (["ABC", "abc"] : List String).length = 2 := by
  refine ⟨by decide, rfl⟩

-- Lemmas about trailing newlines (C10).

/-- Strings with equal character data are equal. -/
theorem strExt {s t : String} (h : s.data = t.data) : s = t :=
  congrArg String.mk h

/-- String append acts as list append on character data. -/
theorem sappend_data (s t : String) : (s ++ t).data = s.data ++ t.data := rfl

/-- One-step unfolding: a marker line closes the open generation. -/
theorem splitAuxL_cons_marker_open (l : String) (ls cur : List String)
    (hm : isGenerationMarker l = true) :
    splitAuxL (l :: ls) cur true = cur :: splitAuxL ls [l] true := by
  simp only [splitAuxL, hm, if_true]
  rfl

/-- One-step unfolding: a non-marker line joins the open generation. -/
theorem splitAuxL_cons_other_open (l : String) (ls cur : List String)
    (hm : isGenerationMarker l = false) :
    splitAuxL (l :: ls) cur true = splitAuxL ls (cur ++ [l]) true := by
  simp only [splitAuxL, hm, Bool.false_eq_true, if_false, if_true]

/-- One-step unfolding: a marker line opens the first generation. -/
theorem splitAuxL_cons_marker_closed (l : String) (ls cur : List String)
    (hm : isGenerationMarker l = true) :
    splitAuxL (l :: ls) cur false = splitAuxL ls [l] true := by
  simp only [splitAuxL, hm, if_true, Bool.false_eq_true, if_false,
    List.nil_append]

/-- One-step unfolding: a non-marker line before the first marker is an
orphan. -/
theorem splitAuxL_cons_other_closed (l : String) (ls cur : List String)
    (hm : isGenerationMarker l = false) :
    splitAuxL (l :: ls) cur false = splitAuxL ls cur false := by
  simp only [splitAuxL, hm, Bool.false_eq_true, if_false]

/-- Line splitting yields one more segment than there are newlines. -/
theorem splitLines_length :
    ∀ cs : List Char, (splitLines cs).length = cs.count '\n' + 1 := by
  intro cs
  induction cs with
  | nil => rfl
  | cons c cs ih =>
    cases hr : splitLines cs with
    | nil => rw [hr] at ih; simp at ih
    | cons l ls =>
      rw [hr] at ih
      simp only [List.length_cons] at ih
      by_cases hc : c = '\n'
      · subst hc
        simp [splitLines, hr, List.count_cons]
        omega
      · simp [splitLines, hr, hc, List.count_cons, Ne.symm hc]
        omega

/-- A newline-terminated character list splits into lines ending with the
empty line. -/
theorem splitLines_concat_newline :
    ∀ cs : List Char, (splitLines (cs ++ ['\n'])).getLast? = some [] := by
  intro cs
  induction cs with
  | nil => rfl
  | cons c cs ih =>
    show (splitLines (c :: (cs ++ ['\n']))).getLast? = some []
    cases hr : splitLines (cs ++ ['\n']) with
    | nil => rw [hr] at ih; simp at ih
    | cons l ls =>
      rw [hr] at ih
      by_cases hc : c = '\n'
      · simp only [splitLines, hr, if_pos hc]
        rw [List.getLast?_cons_cons]
        exact ih
      · simp only [splitLines, hr, if_neg hc]
        cases ls with
        | nil =>
          have hlen := splitLines_length (cs ++ ['\n'])
          rw [hr] at hlen
          simp [List.count_append] at hlen
        | cons l2 ls2 =>
          rw [List.getLast?_cons_cons]
          rw [List.getLast?_cons_cons] at ih
          exact ih

/-- String-level: splitting a newline-terminated string yields lines ending
with the empty line. -/
theorem splitNl_concat_newline (s : String) :
    (splitNl (s ++ "\n")).getLast? = some "" := by
  unfold splitNl
  rw [List.getLast?_map]
  have hd : (s ++ "\n").data = s.data ++ ['\n'] := rfl
  rw [hd, splitLines_concat_newline]
  rfl

/-- Splitting a newline-terminated string yields at least two lines. -/
theorem splitNl_concat_length (s : String) :
    2 ≤ (splitNl (s ++ "\n")).length := by
  unfold splitNl
  rw [List.length_map]
  have hd : (s ++ "\n").data = s.data ++ ['\n'] := rfl
  rw [hd, splitLines_length]
  have : (s.data ++ ['\n']).count '\n' = s.data.count '\n' + 1 := by
    simp [List.count_append]
  omega

/-- Joining at least two lines of which the last is empty produces a
newline-terminated string. -/
theorem joinNl_last_nl :
    ∀ g : List String, g.getLast? = some "" → 2 ≤ g.length →
      ∃ t, joinNl g = t ++ "\n" := by
  intro g
  induction g with
  | nil => intro h _; simp at h
  | cons a g ih =>
    intro hlast hlen
    cases g with
    | nil => simp at hlen
    | cons b g' =>
      rw [List.getLast?_cons_cons] at hlast
      cases g' with
      | nil =>
        simp only [List.getLast?_singleton, Option.some.injEq] at hlast
        refine ⟨a, ?_⟩
        show a ++ "\n" ++ joinNl [b] = a ++ "\n"
        rw [hlast]
        show a ++ "\n" ++ "" = a ++ "\n"
        apply strExt
        simp [sappend_data]
      | cons c g'' =>
        obtain ⟨t, ht⟩ := ih hlast (by simp)
        refine ⟨a ++ "\n" ++ t, ?_⟩
        show a ++ "\n" ++ joinNl (b :: c :: g'') = a ++ "\n" ++ t ++ "\n"
        rw [ht]
        apply strExt
        simp [sappend_data]

/-- A good group ending in the empty line has its marker line and at least
one more line. -/
theorem goodGroup_two {g : List String} (hg : GoodGroup g)
    (hl : g.getLast? = some "") : 2 ≤ g.length := by
  obtain ⟨m, rest, hgw, hmk, _⟩ := hg
  subst hgw
  cases rest with
  | nil =>
    simp only [List.getLast?_singleton, Option.some.injEq] at hl
    rw [hl] at hmk
    have hz : isGenerationMarker "" = false := by decide
    rw [hz] at hmk
    cases hmk
  | cons r rest' => simp

/-- With a generation open, if the remaining input ends with the empty
line, the final emitted group ends with the empty line. -/
theorem splitAuxL_last_true :
    ∀ (ls : List String) (cur : List String), ls ≠ [] →
      ls.getLast? = some "" →
      ∃ g, (splitAuxL ls cur true).getLast? = some g
        ∧ g.getLast? = some "" := by
  intro ls
  induction ls with
  | nil => intro cur h _; exact absurd rfl h
  | cons l ls ih =>
    intro cur _ hlast
    cases ls with
    | nil =>
      simp only [List.getLast?_singleton, Option.some.injEq] at hlast
      subst hlast
      have hm : isGenerationMarker "" = false := by decide
      rw [splitAuxL_cons_other_open "" [] cur hm]
      refine ⟨cur ++ [""], ?_, List.getLast?_concat cur⟩
      have hpos : 0 < (cur ++ [""]).length := by simp
      simp only [splitAuxL, hpos, if_true, List.getLast?_singleton]
    | cons l2 ls2 =>
      rw [List.getLast?_cons_cons] at hlast
      by_cases hm : isGenerationMarker l
      · rw [splitAuxL_cons_marker_open l (l2 :: ls2) cur hm]
        obtain ⟨g, hg1, hg2⟩ := ih [l] (by simp) hlast
        refine ⟨g, ?_, hg2⟩
        have hne : splitAuxL (l2 :: ls2) [l] true ≠ [] := by
          intro hcon
          rw [hcon] at hg1
          cases hg1
        obtain ⟨x, xs, hxx⟩ := List.exists_cons_of_ne_nil hne
        rw [hxx]
        rw [List.getLast?_cons_cons]
        rw [hxx] at hg1
        exact hg1
      · simp only [Bool.not_eq_true] at hm
        rw [splitAuxL_cons_other_open l (l2 :: ls2) cur hm]
        exact ih (cur ++ [l]) (by simp) hlast

/-- From the closed state: if the input contains a marker line and ends
with the empty line, the final emitted group ends with the empty line. -/
theorem splitAuxL_last_false :
    ∀ ls : List String, (∃ m ∈ ls, isGenerationMarker m = true) →
      ls.getLast? = some "" →
      ∃ g, (splitAuxL ls [] false).getLast? = some g
        ∧ g.getLast? = some "" := by
  intro ls
  induction ls with
  | nil =>
    intro h _
    obtain ⟨m, hm, _⟩ := h
    exact absurd hm (List.not_mem_nil m)
  | cons l ls ih =>
    intro hmem hlast
    by_cases hm : isGenerationMarker l
    · rw [splitAuxL_cons_marker_closed l ls [] hm]
      cases ls with
      | nil =>
        simp only [List.getLast?_singleton, Option.some.injEq] at hlast
        rw [hlast] at hm
        have hz : isGenerationMarker "" = false := by decide
        rw [hz] at hm
        cases hm
      | cons l2 ls2 =>
        rw [List.getLast?_cons_cons] at hlast
        exact splitAuxL_last_true (l2 :: ls2) [l] (by simp) hlast
    · simp only [Bool.not_eq_true] at hm
      rw [splitAuxL_cons_other_closed l ls [] hm]
      obtain ⟨m, hmm, hmk⟩ := hmem
      have hmls : m ∈ ls := by
        cases List.mem_cons.mp hmm with
        | inl h =>
          rw [h] at hmk
          rw [hmk] at hm
          cases hm
        | inr h => exact h
      cases ls with
      | nil => exact absurd hmls (List.not_mem_nil m)
      | cons l2 ls2 =>
        rw [List.getLast?_cons_cons] at hlast
        exact ih ⟨m, hmls, hmk⟩ hlast

/-- The dehasher maps the empty line to the empty line. -/
theorem dehash_empty (dict : Dict) : dehash dict "" = "" := by
  show String.mk
    (dict.foldl (fun acc kv => listReplace kv.1.data kv.2.data acc) []) = ""
  induction dict with
  | nil => rfl
  | cons kv rest ih => simpa [listReplace, replFuel] using ih

/-- Appending a newline-terminated chunk and one more newline to a string
produces a string ending in a blank line. -/
theorem out_shape (o x u : String) (h : x = u ++ "\n") :
    o ++ x ++ "\n" = (o ++ u) ++ "\n\n" := by
  subst h
  apply strExt
  have h1 : ("\n" : String).data = ['\n'] := rfl
  have h2 : ("\n\n" : String).data = ['\n', '\n'] := rfl
  simp [sappend_data, h1, h2]

/-- Dehashing a newline-terminated generation keeps the trailing newline:
the empty final line is dehashed to itself and rejoined. -/
theorem dehashGeneration_last (dict : Dict) (t : String) :
    ∃ u, dehashGeneration dict (t ++ "\n") = u ++ "\n" := by
  unfold dehashGeneration
  apply joinNl_last_nl
  · rw [List.getLast?_map, splitNl_concat_newline]
    simp [dehash_empty]
  · rw [List.length_map]
    exact splitNl_concat_length t

/-- Each successful loop iteration appends one newline-terminated chunk to
the output; the chunk itself ends with a newline whenever the generation
does. -/
theorem processGeneration_out {provider : String → Option Dict}
    {st st' : DState} {gen : String}
    (hp : processGeneration provider st gen = some st') :
    ∃ X, st'.output = st.output ++ X ++ "\n"
      ∧ ∀ t, gen = t ++ "\n" → ∃ u, X = u ++ "\n" := by
  cases hex : extractBuildId gen with
  | none =>
    simp only [processGeneration, hex] at hp
    cases hp
    exact ⟨gen, rfl, fun t ht => ⟨t, ht⟩⟩
  | some b =>
    simp only [processGeneration, hex] at hp
    cases hlk : List.lookup b st.cache with
    | some dict =>
      simp only [hlk] at hp
      cases hp
      refine ⟨dehashGeneration dict gen, rfl, ?_⟩
      intro t ht
      rw [ht]
      exact dehashGeneration_last dict t
    | none =>
      simp only [hlk] at hp
      cases hpr : provider b with
      | none =>
        simp only [hpr] at hp
        cases hp
      | some dict =>
        simp only [hpr] at hp
        by_cases hde : dict.isEmpty
        · rw [if_pos hde] at hp
          cases hp
          exact ⟨gen, rfl, fun t ht => ⟨t, ht⟩⟩
        · rw [if_neg hde] at hp
          cases hp
          refine ⟨dehashGeneration dict gen, rfl, ?_⟩
          intro t ht
          rw [ht]
          exact dehashGeneration_last dict t

/-- If the last generation of a successful run is newline-terminated, the
final output ends with a blank line. -/
theorem runGens_out_last {provider : String → Option Dict} :
    ∀ (gens : List String) (st st' : DState),
      runGens provider gens st = some st' →
      (∃ glast t, gens.getLast? = some glast ∧ glast = t ++ "\n") →
      ∃ u, st'.output = u ++ "\n\n" := by
  intro gens
  induction gens with
  | nil =>
    intro st st' _ hl
    obtain ⟨g, t, hg, _⟩ := hl
    simp at hg
  | cons g gens ih =>
    intro st st' hr hl
    unfold runGens at hr
    cases hp : processGeneration provider st g with
    | none => rw [hp] at hr; cases hr
    | some st₁ =>
      rw [hp] at hr
      cases gens with
      | nil =>
        cases hr
        obtain ⟨glast, t, hg, hgt⟩ := hl
        simp only [List.getLast?_singleton, Option.some.injEq] at hg
        obtain ⟨X, hX, hXnl⟩ := processGeneration_out hp
        obtain ⟨u, hu⟩ := hXnl t (by rw [hg, hgt])
        refine ⟨st.output ++ u, ?_⟩
        rw [hX, out_shape st.output X u hu]
      | cons g2 gens2 =>
        obtain ⟨glast, t, hg, hgt⟩ := hl
        rw [List.getLast?_cons_cons] at hg
        exact ih st₁ st' hr ⟨glast, t, hg, hgt⟩

/-- C10: for any input that contains a marker line and ends with a newline,
the splitter's last returned element ends with a newline (the empty segment
after the final newline is kept as an included empty last line), and every
successful dehashLogs output on such input ends with a blank line (two
final newlines), produced by the per-generation trailing newline. -/
theorem dehashLogs_c10 (logs s : String) (hnl : logs = s ++ "\n")
    (hmark : ∃ l ∈ splitNl logs, isGenerationMarker l = true) :
    (∃ g t, (splitGenerations logs).getLast? = some g ∧ g = t ++ "\n")
    ∧ ∀ provider out fetched,
        dehashLogs provider logs = some (out, fetched) →
        ∃ u, out = u ++ "\n\n" := by
  have hgl : ∃ gl, (splitAuxL (splitNl logs) [] false).getLast? = some gl
      ∧ gl.getLast? = some "" := by
    apply splitAuxL_last_false (splitNl logs) hmark
    rw [hnl]
    exact splitNl_concat_newline s
  obtain ⟨gl, hgl1, hgl2⟩ := hgl
  have hgood : GoodGroup gl :=
    splitAuxL_shape_false (splitNl logs) gl (List.mem_of_getLast?_eq_some hgl1)
  obtain ⟨t, ht⟩ := joinNl_last_nl gl hgl2 (goodGroup_two hgood hgl2)
  have hsg : (splitGenerations logs).getLast? = some (joinNl gl) := by
    show (splitGenAux (splitNl logs) [] false).getLast? = _
    rw [splitGenAux_eq_map, List.getLast?_map, hgl1]
    rfl
  constructor
  · exact ⟨joinNl gl, t, hsg, ht⟩
  · intro provider out fetched hrun
    unfold dehashLogs at hrun
    cases hr : runGens provider (splitGenerations logs) initState with
    | none => rw [hr] at hrun; cases hrun
    | some st =>
      rw [hr] at hrun
      simp only [Option.map_some', Option.some.injEq, Prod.mk.injEq] at hrun
      obtain ⟨hout, _⟩ := hrun
      rw [← hout]
      exact runGens_out_last (splitGenerations logs) initState st hr
        ⟨joinNl gl, t, hsg, ht⟩

/-- Witness for C10 at a concrete newline-terminated one-marker input. -/
theorem dehashLogs_c10_witness :
    (∃ g t, (splitGenerations "=== Generation: 1 ===\n").getLast? = some g
        ∧ g = t ++ "\n")
    ∧ ∀ provider out fetched,
        dehashLogs provider "=== Generation: 1 ===\n" = some (out, fetched) →
        ∃ u, out = u ++ "\n\n" :=
  dehashLogs_c10 "=== Generation: 1 ===\n" "=== Generation: 1 ==="
    rfl (by decide)
